import Mathlib

/-!
Verification of the job-board web crawler (`webcrawler.py`).

Text is modelled as `List Char` (`Str`).  Python's `str` helpers that the
crawler uses (`lower`, `strip`, `replace`, the `in` substring test) are
embedded as executable functions on `Str`; Python dictionaries are embedded
as association lists with Python's insertion semantics (updating an existing
key in place, otherwise appending).  The effectful parts of the pipeline
(file appends, logging) are embedded as explicit state passing, and a raised
exception is `Option.none`.
-/

namespace WebCrawler

/-- Text, as a list of characters. -/
abbrev Str := List Char

/-- Coerce a Lean string literal to `Str`. -/
def str (s : String) : Str := s.data

/-- The ASCII fragment of Python `str.lower`, applied characterwise.  All
keywords and markup used by the crawler are ASCII or Hebrew (caseless), so
this fragment is faithful for the program's inputs. -/
def pyLower (t : Str) : Str :=
  t.map (fun c => if 'A' ≤ c ∧ c ≤ 'Z' then Char.ofNat (c.toNat + 32) else c)

/-- ASCII whitespace, the fragment of Python's `str.strip` default set that
the crawler's pages can contain. -/
def pyIsSpace (c : Char) : Bool :=
  c = ' ' ∨ c = '\t' ∨ c = '\n' ∨ c = '\r' ∨ c = '\x0b' ∨ c = '\x0c'

/-- Python `str.strip()`: drop leading and trailing whitespace. -/
def pyStrip (t : Str) : Str :=
  ((t.dropWhile pyIsSpace).reverse.dropWhile pyIsSpace).reverse

/-- Boolean test that `k` begins `t`. -/
def leadsWith : Str → Str → Bool
  | [], _ => true
  | _ :: _, [] => false
  | a :: as, b :: bs => a = b && leadsWith as bs

/-- Python's substring test `k in t`. -/
def strContains : Str → Str → Bool
  | [], k => k.isEmpty
  | c :: rest, k => leadsWith k (c :: rest) || strContains rest k

/-- Specification-side predicate: `k` occurs in `t` as a contiguous
substring. -/
def SubstrOf (k t : Str) : Prop := ∃ a b, t = a ++ k ++ b

theorem leadsWith_iff (k t : Str) : leadsWith k t = true ↔ ∃ b, t = k ++ b := by
  induction k generalizing t with
  | nil => simp [leadsWith]
  | cons a as ih =>
    cases t with
    | nil => simp [leadsWith]
    | cons b bs =>
      simp only [leadsWith, Bool.and_eq_true, decide_eq_true_eq, ih, List.cons_append,
        List.cons.injEq]
      constructor
      · rintro ⟨rfl, c, rfl⟩; exact ⟨c, rfl, rfl⟩
      · rintro ⟨c, rfl, rfl⟩; exact ⟨rfl, c, rfl⟩

theorem strContains_iff (t k : Str) : strContains t k = true ↔ SubstrOf k t := by
  induction t with
  | nil =>
    simp only [strContains, List.isEmpty_iff, SubstrOf]
    constructor
    · rintro rfl; exact ⟨[], [], rfl⟩
    · rintro ⟨a, b, h⟩
      rcases List.append_eq_nil.mp ((List.append_eq_nil.mp h.symm).1) with ⟨_, h2⟩
      exact h2
  | cons c rest ih =>
    simp only [strContains, Bool.or_eq_true, leadsWith_iff, ih, SubstrOf]
    constructor
    · rintro (⟨b, h⟩ | ⟨a, b, h⟩)
      · exact ⟨[], b, by simp [h]⟩
      · exact ⟨c :: a, b, by simp [h]⟩
    · rintro ⟨a, b, h⟩
      cases a with
      | nil => exact Or.inl ⟨b, by simpa using h⟩
      | cons x xs =>
        right
        have h' : c :: rest = x :: (xs ++ k ++ b) := by simpa using h
        exact ⟨xs, b, (List.cons.injEq .. ▸ h').2⟩

/-- Fuelled worker for Python `str.replace` with a non-empty pattern:
scan left to right, and at each leftmost match of `old` emit `new` and skip
past the match.  The fuel is only a structural-recursion device; `t.length`
fuel always suffices. -/
def replaceF : Nat → Str → Str → Str → Str
  | 0, t, _, _ => t
  | _ + 1, [], _, _ => []
  | fuel + 1, c :: rest, old, new =>
    if leadsWith old (c :: rest) && !old.isEmpty then
      new ++ replaceF fuel ((c :: rest).drop old.length) old new
    else
      c :: replaceF fuel rest old new

/-- Python `t.replace(old, new)`.  With an empty pattern Python inserts
`new` before every character and at the end; otherwise every leftmost
non-overlapping occurrence of `old` is replaced by `new`. -/
def pyReplace (t old new : Str) : Str :=
  if old = [] then new ++ t.flatMap (fun c => c :: new)
  else replaceF t.length t old new

/-- Fuelled worker splitting `t` at every leftmost non-overlapping
occurrence of `k`; mirrors the scan of `replaceF`. -/
def splitF : Nat → Str → Str → List Str
  | 0, t, _ => [t]
  | _ + 1, [], _ => [[]]
  | fuel + 1, c :: rest, k =>
    if leadsWith k (c :: rest) && !k.isEmpty then
      [] :: splitF fuel ((c :: rest).drop k.length) k
    else
      match splitF fuel rest k with
      | [] => [[c]]
      | p :: ps => (c :: p) :: ps

/-- Specification-side split of a text at every leftmost non-overlapping
occurrence of a pattern. -/
def splitOnSub (t k : Str) : List Str := splitF t.length t k

/-- Join a list of pieces with a separator between consecutive pieces. -/
def joinWith (sep : Str) : List Str → Str
  | [] => []
  | [x] => x
  | x :: y :: ys => x ++ sep ++ joinWith sep (y :: ys)

theorem splitF_ne_nil (fuel : Nat) (t k : Str) : splitF fuel t k ≠ [] := by
  induction fuel generalizing t with
  | zero => simp [splitF]
  | succ n ih =>
    cases t with
    | nil => simp [splitF]
    | cons c rest =>
      by_cases h : (leadsWith k (c :: rest) && !k.isEmpty) = true
      · simp [splitF, h]
      · rw [splitF, if_neg h]
        cases hs : splitF n rest k with
        | nil => simp
        | cons p ps => simp

theorem leadsWith_length_le (k t : Str) (h : leadsWith k t = true) : k.length ≤ t.length := by
  rcases (leadsWith_iff k t).mp h with ⟨b, rfl⟩
  simp

theorem replaceF_eq_joinWith (old new : Str) (hold : old ≠ []) :
    ∀ (fuel : Nat) (t : Str), t.length ≤ fuel →
      replaceF fuel t old new = joinWith new (splitF fuel t old) := by
  intro fuel
  induction fuel with
  | zero =>
    intro t ht
    have : t = [] := List.length_eq_zero.mp (Nat.le_zero.mp ht)
    subst this
    simp [replaceF, splitF, joinWith]
  | succ n ih =>
    intro t ht
    cases t with
    | nil => simp [replaceF, splitF, joinWith]
    | cons c rest =>
      by_cases h : (leadsWith old (c :: rest) && !old.isEmpty) = true
      · have hlen : old.length ≤ (c :: rest).length :=
          leadsWith_length_le _ _ (Bool.and_eq_true .. ▸ h).1
        have holdpos : 0 < old.length := List.length_pos.mpr hold
        have hdrop : ((c :: rest).drop old.length).length ≤ n := by
          rw [List.length_drop]
          have : (c :: rest).length ≤ n + 1 := ht
          omega
        rw [replaceF, splitF, if_pos h, if_pos h, ih _ hdrop]
        cases hs : splitF n ((c :: rest).drop old.length) old with
        | nil => exact absurd hs (splitF_ne_nil n _ old)
        | cons p ps => simp [joinWith]
      · have hrest : rest.length ≤ n := Nat.succ_le_succ_iff.mp ht
        rw [replaceF, splitF, if_neg h, if_neg h, ih _ hrest]
        cases hs : splitF n rest old with
        | nil => exact absurd hs (splitF_ne_nil n rest old)
        | cons p ps =>
          cases ps with
          | nil => simp [joinWith]
          | cons q qs => simp [joinWith]

/-- Python `t.replace(old, new)` with a non-empty pattern equals the split of
`t` at every occurrence of `old` re-joined with `new` as the separator. -/
theorem pyReplace_eq_joinWith (t old new : Str) (hold : old ≠ []) :
    pyReplace t old new = joinWith new (splitOnSub t old) := by
  rw [pyReplace, if_neg hold, splitOnSub]
  exact replaceF_eq_joinWith old new hold t.length t le_rfl

/-- Mirrors `HTMLJobExtractor.is_hebrew`: the text contains a character
between `'֐'` and `'׿'` inclusive. -/
def is_hebrew (text : Str) : Bool :=
  text.any (fun c => '\u0590' ≤ c && c ≤ '\u05FF')

/-- The text-direction choice made inline in `generate_html`:
`'rtl' if self.is_hebrew(description) else 'ltr'`. -/
def direction (description : Str) : Str :=
  if is_hebrew description then str "rtl" else str "ltr"

/-- The replacement string `highlight_keywords` substitutes for a keyword:
the keyword wrapped in the red/bold span markup. -/
def spanWrap (keyword : Str) : Str :=
  str "<span style=\"color:red; font-weight:bold;\">" ++ keyword ++ str "</span>"

/-- Mirrors `HTMLJobExtractor.highlight_keywords`: for each keyword in
order, `text = text.replace(keyword, spanWrap keyword)`. -/
def highlight_keywords (text : Str) (keywords : List Str) : Str :=
  keywords.foldl (fun t k => pyReplace t k (spanWrap k)) text

/-- A job record, the value stored in the `jobs` dictionary built by
`extract_job_ids` (fields in the order of the source's dict literal). -/
structure JobRecord where
  description : Str
  date : Str
  area : Str
  title : Str
deriving DecidableEq, Repr

/-- One job-entry `div` of the parsed page, i.e. one element of
`soup.find_all("div", class_="page-details job-candidate-list ...")`.
Each field holds the text of the corresponding sub-element when the
selector finds it (`none` when it does not); `titleH3` is the
`collapse-job page-details-job clearfix` div (`none` when absent) together
with its inner `h3`'s text (`none` when the `h3` is absent).  BeautifulSoup
parsing itself is external; the parsed page is modelled as the list of these
entries. -/
structure JobEntry where
  idText : Option Str
  descText : Option Str
  titleH3 : Option (Option Str)
  dateText : Option Str
  areaText : Option Str
deriving DecidableEq, Repr

/-- Mirrors `extract_text_or_default`: `element.text.strip()` when the
element is present, the default `"N/A"` otherwise. -/
def extract_text_or_default (element : Option Str) : Str :=
  match element with
  | some s => pyStrip s
  | none => str "N/A"

/-- The job id extracted for an entry (the `field-name-field-job-id` div's
stripped text, defaulting to `"N/A"`). -/
def entryId (e : JobEntry) : Str := extract_text_or_default e.idText

/-- The record `extract_job_ids` builds for one entry, or `none` when the
title extraction raises: `job_div_inner.find("div", class_="collapse-job ...")`
returning `None` makes `.find("h3")` raise `AttributeError`, and a missing
`h3` makes `.text` raise; only an empty (falsy) title string is replaced by
`"N/A"` via `job_title or "N/A"`. -/
def entryRecord (e : JobEntry) : Option JobRecord :=
  match e.titleH3 with
  | none => none
  | some none => none
  | some (some h3) =>
    let job_title := pyStrip h3
    some { description := extract_text_or_default e.descText
           date := extract_text_or_default e.dateText
           area := extract_text_or_default e.areaText
           title := if job_title = [] then str "N/A" else job_title }

/-- The `jobs` dictionary: an association list in Python-dict iteration
order (insertion order, first occurrence of each key). -/
abbrev Jobs := List (Str × JobRecord)

/-- Python dict assignment `jobs[k] = v`: update an existing key in place,
otherwise append the new pair. -/
def dictInsert : Jobs → Str → JobRecord → Jobs
  | [], k, v => [(k, v)]
  | (k', v') :: rest, k, v =>
    if k' = k then (k, v) :: rest else (k', v') :: dictInsert rest k v

/-- Python dict lookup `m[k]` (as an `Option`): the value at the first —
and, by construction, only — matching key. -/
def dictGet : Jobs → Str → Option JobRecord
  | [], _ => none
  | (k', v) :: rest, k => if k' = k then some v else dictGet rest k

/-- Mirrors `extract_job_ids`: loop over the located entries, building each
record and assigning `jobs[job_id] = record`; `none` when any entry's title
extraction raises, which aborts the whole call. -/
def extract_job_ids (entries : List JobEntry) : Option Jobs :=
  entries.foldlM
    (fun jobs e => (entryRecord e).map (fun r => dictInsert jobs (entryId e) r)) []

/-- The dict comprehension on line 169 of the source: keep the jobs whose
description contains some keyword, both sides lowercased. -/
def filterJobs (jobs : Jobs) (keywords : List Str) : Jobs :=
  jobs.filter
    (fun p => keywords.any (fun kw => strContains (pyLower p.2.description) (pyLower kw)))

/-- Outcome of the `aiohttp` GET in `check_keywords_in_page`: either the
parsed page (its list of job-entry divs; parsing is external) or a
transport-level failure (timeout, connection error, or the non-2xx status
surfaced by `raise_for_status`), all of which are `aiohttp.ClientError`s. -/
inductive FetchResult where
  | success (entries : List JobEntry)
  | failure (msg : Str)
deriving DecidableEq, Repr

/-- The logger calls the pipeline makes, in order of emission. -/
inductive LogEvent where
  | fetchError (url msg : Str)
  | noMatch (url : Str)
  | contentAdded (url : Str)
  | htmlGenerated
deriving DecidableEq, Repr

/-- Mirrors `check_keywords_in_page`: a transport failure is caught, logged
and turned into an empty dictionary; on success the page is extracted and
filtered (an extraction exception propagates, hence the outer `Option`).
Returns the matching jobs together with the log records it emitted. -/
def check_keywords_in_page (fr : FetchResult) (url : Str) (keywords : List Str) :
    Option (Jobs × List LogEvent) :=
  match fr with
  | .failure msg => some ([], [.fetchError url msg])
  | .success entries =>
    (extract_job_ids entries).map (fun jobs => (filterJobs jobs keywords, []))

/-- One rendered job block of `generate_html` (whitespace between tags
elided). -/
def renderJob (keywords : List Str) (job_id : Str) (job_data : JobRecord) : Str :=
  str "<div style=\"direction: " ++ direction job_data.description
    ++ str "; margin-bottom: 20px;\">"
    ++ str "<h3><strong>" ++ job_data.title ++ str "</strong></h3>"
    ++ str "<h4>" ++ job_id ++ str "</h4>"
    ++ str "<h4><strong>מיקום :" ++ job_data.area ++ str "</strong></h4>"
    ++ str "<h4><strong>תאריך :" ++ job_data.date ++ str "</strong></h4>"
    ++ str "<p>" ++ highlight_keywords job_data.description keywords ++ str "</p>"
    ++ str "</div>"

/-- The HTML section `generate_html` appends for a URL with matching jobs:
the per-URL header, one block per job in dictionary order, and the closing
tags (whitespace between tags elided). -/
def sectionHtml (url : Str) (keywords : List Str) (jobs : Jobs) : Str :=
  str "<html><head><meta charset=\"UTF-8\"><title>Job Listings from " ++ url
    ++ str "</title></head><body>"
    ++ str "<h1>Job Listings from URL: <a href=\"" ++ url
    ++ str "\" target=\"_blank\">" ++ url ++ str "</a></h1>"
    ++ str "<h2>Keywords: " ++ joinWith (str ", ") keywords ++ str "</h2>"
    ++ (jobs.map (fun p => renderJob keywords p.1 p.2)).flatten
    ++ str "</body></html>"

/-- Mirrors `generate_html`: fetch-and-filter the page, then either append
the rendered section to the report file (logging `Content added`) or log
`No matching jobs found`.  The result is the appended chunk (`none` when
nothing is appended) with the emitted log records; the outer `Option` is
an uncaught extraction exception. -/
def generate_html (fr : FetchResult) (url : Str) (keywords : List Str) :
    Option (Option Str × List LogEvent) :=
  match check_keywords_in_page fr url keywords with
  | none => none
  | some (matching_jobs, lg) =>
    if matching_jobs.isEmpty then
      some (none, lg ++ [.noMatch url])
    else
      some (some (sectionHtml url keywords matching_jobs), lg ++ [.contentAdded url])

/-- Mirrors `check_multiple_urls` with the report file and log made explicit:
one task per URL, each appending its chunk to the shared report.  Lean's
evaluation order stands in for the cooperative scheduler's completion order
(the source guarantees no particular order across URLs); an uncaught
per-task exception fails the whole `asyncio.gather`, hence the `Option`. -/
def check_multiple_urls (fetch : Str → FetchResult) (keywords : List Str) :
    List Str → List Str × List LogEvent → Option (List Str × List LogEvent)
  | [], st => some st
  | url :: rest, (report, log) =>
    match generate_html (fetch url) url keywords with
    | none => none
    | some (chunk, lg) =>
      check_multiple_urls fetch keywords rest (report ++ chunk.toList, log ++ lg)

/-- The query suffix `f"?page={page}"`. -/
def pageTag (page : Nat) : Str := str "?page=" ++ (Nat.repr page).data

/-- Mirrors `generate_paged_urls`: for each base URL append the URL itself,
then `url?page=1` through `url?page=9` (`range(1, 10)`). -/
def generate_paged_urls (base_urls : List Str) : List Str :=
  base_urls.foldl
    (fun paged_urls url =>
      (List.range' 1 9).foldl
        (fun acc page => acc ++ [url ++ pageTag page])
        (paged_urls ++ [url]))
    []

/-- The document-header chunk `save_styles_to_html` appends (doctype,
`<head>` with the stylesheet link; whitespace between tags elided). -/
def stylesHeader : Str :=
  str "<!DOCTYPE html><html lang=\"en\"><head><meta charset=\"UTF-8\">"
    ++ str "<meta name=\"viewport\" content=\"width=device-width, initial-scale=1.0\">"
    ++ str "<title>Job Listings</title><link rel=\"stylesheet\" href=\"styles.css\"></head>"

/-- Mirrors `main` on the report file: `prior` is the report file left by any
earlier run (`none` when absent).  `main` removes the file when it exists,
`save_styles_to_html` appends the header (creating the file), and
`check_multiple_urls` runs over the expanded URLs. -/
def mainRun (prior : Option (List Str)) (fetch : Str → FetchResult)
    (base_urls keywords : List Str) : Option (List Str × List LogEvent) :=
  let afterRemove : Option (List Str) := if prior.isSome then none else prior
  let report0 := afterRemove.getD [] ++ [stylesHeader]
  check_multiple_urls fetch keywords (generate_paged_urls base_urls)
    (report0, [.htmlGenerated])

/-- The chunk one URL's task contributes to the report, a function of that
URL's fetch outcome alone. -/
def sectionOf (fetch : Str → FetchResult) (keywords : List Str) (url : Str) :
    Option Str :=
  match generate_html (fetch url) url keywords with
  | some (chunk, _) => chunk
  | none => none

/-- The log records one URL's task emits, a function of that URL's fetch
outcome alone. -/
def logsOf (fetch : Str → FetchResult) (keywords : List Str) (url : Str) :
    List LogEvent :=
  match generate_html (fetch url) url keywords with
  | some (_, lg) => lg
  | none => []

/-- Specification-side (§4.1) pages for one base URL: the base URL itself,
then `?page=1` through `?page=9` in increasing order. -/
def pagedBlock (url : Str) : List Str :=
  url :: (List.range' 1 9).map (fun page => url ++ pageTag page)

theorem foldl_append_map {α β : Type} (f : α → β) (l : List α) :
    ∀ acc : List β, l.foldl (fun a p => a ++ [f p]) acc = acc ++ l.map f := by
  induction l with
  | nil => simp
  | cons x xs ih => intro acc; simp [ih]

theorem generate_paged_urls_loop (base_urls : List Str) :
    ∀ acc : List Str,
      base_urls.foldl
        (fun paged_urls url =>
          (List.range' 1 9).foldl
            (fun acc2 page => acc2 ++ [url ++ pageTag page])
            (paged_urls ++ [url]))
        acc
      = acc ++ base_urls.flatMap pagedBlock := by
  induction base_urls with
  | nil => simp
  | cons u rest ih =>
    intro acc
    rw [List.foldl_cons, foldl_append_map, ih]
    simp [pagedBlock]

theorem pagedBlock_flatMap_length (bs : List Str) :
    (bs.flatMap pagedBlock).length = 10 * bs.length := by
  induction bs with
  | nil => simp
  | cons u rest ih =>
    rw [List.flatMap_cons, List.length_append, ih]
    simp only [pagedBlock, List.length_cons, List.length_map, List.length_range']
    omega

/-- C4: the URL expander yields, for each base URL in order, the base URL
itself followed by `?page=1` … `?page=9`, hence exactly `10 × N` URLs for
`N` base URLs. -/
theorem c4_url_expansion (base_urls : List Str) :
    generate_paged_urls base_urls = base_urls.flatMap pagedBlock ∧
    (generate_paged_urls base_urls).length = 10 * base_urls.length := by
  have h : generate_paged_urls base_urls = base_urls.flatMap pagedBlock := by
    rw [generate_paged_urls, generate_paged_urls_loop]
    simp
  exact ⟨h, h ▸ pagedBlock_flatMap_length base_urls⟩

/-- C3: the keyword filter keeps exactly the records whose description
contains, case-insensitively, some keyword as a literal substring, and an
empty keyword list keeps nothing. -/
theorem c3_keyword_filter (jobs : Jobs) (keywords : List Str) :
    (filterJobs jobs keywords).Sublist jobs ∧
    (∀ p : Str × JobRecord,
        p ∈ filterJobs jobs keywords ↔
          p ∈ jobs ∧ ∃ kw ∈ keywords, SubstrOf (pyLower kw) (pyLower p.2.description)) ∧
    filterJobs jobs [] = [] := by
  refine ⟨List.filter_sublist _, ?_, ?_⟩
  · intro p
    simp only [filterJobs, List.mem_filter, List.any_eq_true, strContains_iff]
  · simp [filterJobs]

/-- C6: a rendered block's direction is `rtl` exactly when the description
has a character in the Hebrew Unicode block U+0590–U+05FF, and `ltr`
otherwise. -/
theorem c6_direction (description : Str) :
    (direction description = str "rtl" ↔
      ∃ c ∈ description, 0x590 ≤ c.toNat ∧ c.toNat ≤ 0x5FF) ∧
    (direction description = str "ltr" ↔
      ¬ ∃ c ∈ description, 0x590 ≤ c.toNat ∧ c.toNat ≤ 0x5FF) := by
  have hchar : ∀ c : Char,
      (('֐' ≤ c && c ≤ '׿') = true) ↔ (0x590 ≤ c.toNat ∧ c.toNat ≤ 0x5FF) := by
    intro c
    rw [Bool.and_eq_true, decide_eq_true_eq, decide_eq_true_eq]
    exact Iff.rfl
  have hheb : is_hebrew description = true ↔
      ∃ c ∈ description, 0x590 ≤ c.toNat ∧ c.toNat ≤ 0x5FF := by
    simp only [is_hebrew, List.any_eq_true, hchar]
  by_cases h : is_hebrew description = true
  · rw [direction, if_pos h]
    refine ⟨⟨fun _ => hheb.mp h, fun _ => rfl⟩, ⟨fun hr => ?_, fun hn => absurd (hheb.mp h) hn⟩⟩
    exact absurd hr (by decide)
  · rw [direction, if_neg h]
    refine ⟨⟨fun hr => absurd hr.symm (by decide), fun hc => absurd (hheb.mpr hc) h⟩,
      ⟨fun _ => fun hc => h (hheb.mpr hc), fun _ => rfl⟩⟩

/-- C9: the record with description `"PYTHON"` passes the case-insensitive
keyword filter for keyword `"python"`, yet case-sensitive highlighting
returns the description unchanged, inserting no span. -/
theorem c9_filter_highlight_case_mismatch :
    filterJobs [(str "8", ⟨str "PYTHON", str "N/A", str "N/A", str "T"⟩)] [str "python"] =
      [(str "8", ⟨str "PYTHON", str "N/A", str "N/A", str "T"⟩)] ∧
    highlight_keywords (str "PYTHON") [str "python"] = str "PYTHON" :=
  ⟨by decide, by decide⟩

/-- C2, counterexample: an entry whose title container is missing makes the
whole extraction raise (`job_title_element.find("h3")` on `None`), refuting
the claim that extraction is total with every missing field defaulting to
`"N/A"`. -/
theorem c2_counterexample :
    extract_job_ids
      [⟨some (str "12"), some (str "desc"), none, some (str "1.1.24"), some (str "north")⟩]
      = none := rfl

theorem foldlM_extract_total (entries : List JobEntry) :
    ∀ acc : Jobs,
      (∀ e ∈ entries, (entryRecord e).isSome) →
      ∃ m, entries.foldlM
          (fun jobs e => (entryRecord e).map (fun r => dictInsert jobs (entryId e) r)) acc
        = some m := by
  induction entries with
  | nil => intro acc _; exact ⟨acc, rfl⟩
  | cons e rest ih =>
    intro acc h
    obtain ⟨r, hr⟩ := Option.isSome_iff_exists.mp (h e (List.mem_cons_self e rest))
    obtain ⟨m, hm⟩ := ih (dictInsert acc (entryId e) r)
      (fun e' he' => h e' (List.mem_cons_of_mem e he'))
    exact ⟨m, by simp [List.foldlM_cons, hr, hm]⟩

/-- C2, amended: extraction is total and fields default to `"N/A"` for the
id, description, date and area selectors, **provided each entry's title
container and its `h3` are present**; in particular an entry missing its
date element yields `date = "N/A"` while its other fields stay populated.
(A missing title element instead raises, aborting the whole extraction —
see the counterexample.) -/
theorem c2_field_defaulting (entries : List JobEntry)
    (h : ∀ e ∈ entries, ∃ t, e.titleH3 = some (some t)) :
    (∃ m, extract_job_ids entries = some m) ∧
    (∀ e ∈ entries, ∃ r, entryRecord e = some r ∧
        (e.dateText = none → r.date = str "N/A") ∧
        (∀ d, e.dateText = some d → r.date = pyStrip d) ∧
        (e.idText = none → entryId e = str "N/A") ∧
        (e.descText = none → r.description = str "N/A") ∧
        (∀ s, e.descText = some s → r.description = pyStrip s) ∧
        (e.areaText = none → r.area = str "N/A") ∧
        (∀ a, e.areaText = some a → r.area = pyStrip a)) := by
  constructor
  · refine foldlM_extract_total entries [] (fun e he => ?_)
    obtain ⟨t, ht⟩ := h e he
    simp [entryRecord, ht]
  · intro e he
    obtain ⟨t, ht⟩ := h e he
    refine ⟨_, by rw [entryRecord, ht], ?_, ?_, ?_, ?_, ?_, ?_, ?_⟩ <;>
      simp only [extract_text_or_default, entryId]
    · intro hd; rw [hd]
    · intro d hd; rw [hd]
    · intro hi; rw [hi]
    · intro hs; rw [hs]
    · intro s hs; rw [hs]
    · intro ha; rw [ha]
    · intro a ha; rw [ha]

/-- C2 witness: a concrete entry with the title present and the date element
missing extracts totally, with `date = "N/A"` and the other fields kept. -/
theorem c2_witness :
    (∀ e ∈ [(⟨some (str "7"), some (str "a dev job"), some (some (str "Job")), none,
        some (str "north")⟩ : JobEntry)], ∃ t, e.titleH3 = some (some t)) ∧
    ((∃ m, extract_job_ids [(⟨some (str "7"), some (str "a dev job"),
        some (some (str "Job")), none, some (str "north")⟩ : JobEntry)] = some m) ∧
      (∀ e ∈ [(⟨some (str "7"), some (str "a dev job"), some (some (str "Job")), none,
          some (str "north")⟩ : JobEntry)], ∃ r, entryRecord e = some r ∧
          (e.dateText = none → r.date = str "N/A") ∧
          (∀ d, e.dateText = some d → r.date = pyStrip d) ∧
          (e.idText = none → entryId e = str "N/A") ∧
          (e.descText = none → r.description = str "N/A") ∧
          (∀ s, e.descText = some s → r.description = pyStrip s) ∧
          (e.areaText = none → r.area = str "N/A") ∧
          (∀ a, e.areaText = some a → r.area = pyStrip a))) :=
  ⟨fun e he => ⟨str "Job", by rw [List.mem_singleton.mp he]⟩,
   c2_field_defaulting _ (fun e he => ⟨str "Job", by rw [List.mem_singleton.mp he]⟩)⟩

/-- C5: highlighting is, keyword by keyword in the configured order, the
splitting of the current text at every (leftmost, non-overlapping)
occurrence of the keyword with the red/bold-span-wrapped keyword re-joined
at each split point — i.e. every such occurrence of every keyword is
replaced by its highlighted form. -/
theorem c5_sequential_highlighting (keywords : List Str) (text : Str)
    (h : ∀ k ∈ keywords, k ≠ []) :
    highlight_keywords text keywords =
      keywords.foldl (fun t k => joinWith (spanWrap k) (splitOnSub t k)) text := by
  induction keywords generalizing text with
  | nil => rfl
  | cons k ks ih =>
    have hk : k ≠ [] := h k (List.mem_cons_self k ks)
    simp only [highlight_keywords, List.foldl_cons] at ih ⊢
    rw [pyReplace_eq_joinWith text k (spanWrap k) hk]
    exact ih _ (fun k' hk' => h k' (List.mem_cons_of_mem k hk'))

/-- C5 witness: a concrete text and keyword, the keyword occurring once. -/
theorem c5_witness :
    (∀ k ∈ [str "py"], k ≠ []) ∧
    highlight_keywords (str "go py go") [str "py"] =
      [str "py"].foldl (fun t k => joinWith (spanWrap k) (splitOnSub t k)) (str "go py go") :=
  ⟨by decide, c5_sequential_highlighting [str "py"] (str "go py go") (by decide)⟩

/-- C7: a URL whose processing yields zero matching records — including the
fetch-failure case — appends nothing to the report, leaving its contents
unchanged, and the outcome is logged (`No matching jobs found`, preceded by
the fetch error log in the failure case). -/
theorem c7_zero_match_appends_nothing (fr : FetchResult) (url : Str)
    (keywords : List Str) (lg : List LogEvent) (report : List Str) (log : List LogEvent)
    (h : check_keywords_in_page fr url keywords = some ([], lg)) :
    generate_html fr url keywords = some (none, lg ++ [LogEvent.noMatch url]) ∧
    check_multiple_urls (fun _ => fr) keywords [url] (report, log) =
      some (report, log ++ (lg ++ [LogEvent.noMatch url])) := by
  have h1 : generate_html fr url keywords = some (none, lg ++ [LogEvent.noMatch url]) := by
    rw [generate_html, h]
    rfl
  refine ⟨h1, ?_⟩
  rw [check_multiple_urls, h1]
  simp [check_multiple_urls]

/-- C7 witness: a failed fetch yields the empty mapping, appends nothing to
a nonempty report, and logs the error and the zero-match outcome. -/
theorem c7_witness :
    check_keywords_in_page (.failure (str "timeout")) (str "u") [str "py"] =
      some ([], [LogEvent.fetchError (str "u") (str "timeout")]) ∧
    (generate_html (.failure (str "timeout")) (str "u") [str "py"] =
        some (none, [LogEvent.fetchError (str "u") (str "timeout")] ++
          [LogEvent.noMatch (str "u")]) ∧
      check_multiple_urls (fun _ => .failure (str "timeout")) [str "py"] [str "u"]
          ([str "existing"], []) =
        some ([str "existing"], [] ++ ([LogEvent.fetchError (str "u") (str "timeout")] ++
          [LogEvent.noMatch (str "u")]))) :=
  ⟨rfl, c7_zero_match_appends_nothing (.failure (str "timeout")) (str "u") [str "py"]
    [LogEvent.fetchError (str "u") (str "timeout")] [str "existing"] [] rfl⟩

theorem check_multiple_urls_extends (fetch : Str → FetchResult) (keywords : List Str) :
    ∀ (urls report : List Str) (log : List LogEvent) (m : List Str) (lg : List LogEvent),
      check_multiple_urls fetch keywords urls (report, log) = some (m, lg) →
      ∃ tail, m = report ++ tail := by
  intro urls
  induction urls with
  | nil =>
    intro report log m lg h
    simp only [check_multiple_urls, Option.some.injEq, Prod.mk.injEq] at h
    exact ⟨[], by simp [← h.1]⟩
  | cons u rest ih =>
    intro report log m lg h
    simp only [check_multiple_urls] at h
    cases hg : generate_html (fetch u) u keywords with
    | none => rw [hg] at h; cases h
    | some val =>
      obtain ⟨chunk, lg2⟩ := val
      rw [hg] at h
      obtain ⟨tail, htail⟩ := ih (report ++ chunk.toList) (log ++ lg2) m lg h
      exact ⟨chunk.toList ++ tail, by simp [htail]⟩

/-- C8: the run's outcome is independent of any pre-existing report file —
`main` removes the file before writing, so the report of a second run equals
that of a run from scratch and always starts with the style header. -/
theorem c8_report_truncated_per_run (prior : Option (List Str))
    (fetch : Str → FetchResult) (base_urls keywords : List Str) :
    mainRun prior fetch base_urls keywords = mainRun none fetch base_urls keywords ∧
    (∀ (m : List Str) (lg : List LogEvent),
        mainRun prior fetch base_urls keywords = some (m, lg) →
        ∃ tail, m = stylesHeader :: tail) := by
  have he : mainRun prior fetch base_urls keywords
      = mainRun none fetch base_urls keywords := by
    cases prior <;> rfl
  refine ⟨he, fun m lg h => ?_⟩
  rw [he] at h
  obtain ⟨tail, htail⟩ :=
    check_multiple_urls_extends fetch keywords (generate_paged_urls base_urls)
      [stylesHeader] [LogEvent.htmlGenerated] m lg h
  exact ⟨tail, htail⟩

/-- C8 witness: a concrete run on a leftover report file. -/
theorem c8_witness :
    mainRun (some [str "old report"]) (fun _ => .failure (str "e")) [] [str "k"] =
      mainRun none (fun _ => .failure (str "e")) [] [str "k"] ∧
    ∃ tail, [stylesHeader] = stylesHeader :: tail :=
  ⟨(c8_report_truncated_per_run (some [str "old report"]) (fun _ => .failure (str "e"))
      [] [str "k"]).1,
   (c8_report_truncated_per_run (some [str "old report"]) (fun _ => .failure (str "e"))
      [] [str "k"]).2 [stylesHeader] [LogEvent.htmlGenerated] rfl⟩

theorem dictGet_dictInsert (m : Jobs) (k : Str) (v : JobRecord) (i : Str) :
    dictGet (dictInsert m k v) i = if k = i then some v else dictGet m i := by
  induction m with
  | nil => simp [dictInsert, dictGet]
  | cons p rest ih =>
    obtain ⟨k', v'⟩ := p
    by_cases hk : k' = k
    · subst hk
      rw [dictInsert, if_pos rfl]
      by_cases hi : k' = i
      · subst hi; simp [dictGet]
      · simp [dictGet, hi]
    · rw [dictInsert, if_neg hk]
      by_cases hi : k' = i
      · subst hi
        have hki : ¬ k = k' := fun hh => hk hh.symm
        simp [dictGet, hki]
      · simp [dictGet, hi, ih]

theorem extract_job_ids_loop (entries : List JobEntry) :
    ∀ (acc m : Jobs),
      entries.foldlM
        (fun jobs e => (entryRecord e).map (fun r => dictInsert jobs (entryId e) r)) acc
        = some m →
      ∀ i, dictGet m i =
        match (entries.filter (fun e => entryId e == i)).getLast? with
        | some e => entryRecord e
        | none => dictGet acc i := by
  induction entries with
  | nil =>
    intro acc m h i
    simp only [List.foldlM_nil] at h
    cases h
    rfl
  | cons e rest ih =>
    intro acc m h i
    rw [List.foldlM_cons] at h
    cases hr : entryRecord e with
    | none => rw [hr] at h; cases h
    | some r =>
      rw [hr] at h
      simp only [Option.map_some', Option.some_bind] at h
      have hih := ih (dictInsert acc (entryId e) r) m h i
      rw [hih]
      by_cases hpe : (entryId e == i) = true
      · rw [List.filter_cons, if_pos hpe]
        cases hf : rest.filter (fun e => entryId e == i) with
        | nil =>
          simp only [List.getLast?_singleton, dictGet_dictInsert, hr]
          rw [if_pos (beq_iff_eq .. |>.mp hpe)]
          rfl
        | cons q qs =>
          rw [List.getLast?_cons_cons]
          have hsome : (q :: qs).getLast? = some ((q :: qs).getLast (by simp)) :=
            List.getLast?_eq_getLast _ (by simp)
          rw [hsome]
      · rw [List.filter_cons, if_neg hpe]
        cases hf : rest.filter (fun e => entryId e == i) with
        | nil =>
          simp only [dictGet_dictInsert]
          rw [if_neg (fun hh => hpe (beq_iff_eq .. |>.mpr hh))]
        | cons q qs =>
          have hsome : (q :: qs).getLast? = some ((q :: qs).getLast (by simp)) :=
            List.getLast?_eq_getLast _ (by simp)
          rw [hsome]

/-- C10: when several entries extract the same job id (e.g. several entries
with a missing id element, all receiving `"N/A"`), the dictionary built by
`extract_job_ids` maps that id to the record of the **last** such entry in
document order; all earlier same-id entries are dropped. -/
theorem c10_duplicate_ids_last_wins (entries : List JobEntry) (m : Jobs)
    (h : extract_job_ids entries = some m) (i : Str) :
    dictGet m i =
      ((entries.filter (fun e => entryId e == i)).getLast?).bind entryRecord := by
  rw [extract_job_ids] at h
  rw [extract_job_ids_loop entries [] m h i]
  cases hl : (entries.filter (fun e => entryId e == i)).getLast? <;> simp [dictGet]

/-- C10 witness: two entries both missing the id element collapse to one
`"N/A"` key holding the second entry's record. -/
theorem c10_witness :
    extract_job_ids
      [(⟨none, some (str "one"), some (some (str "T1")), some (str "d1"), none⟩ : JobEntry),
       (⟨none, some (str "two"), some (some (str "T2")), none, some (str "a2")⟩ : JobEntry)]
      = some [(str "N/A", ⟨str "two", str "N/A", str "a2", str "T2"⟩)] ∧
    dictGet [(str "N/A", ⟨str "two", str "N/A", str "a2", str "T2"⟩)] (str "N/A") =
      (([(⟨none, some (str "one"), some (some (str "T1")), some (str "d1"), none⟩ : JobEntry),
         (⟨none, some (str "two"), some (some (str "T2")), none, some (str "a2")⟩ : JobEntry)].filter
          (fun e => entryId e == str "N/A")).getLast?).bind entryRecord :=
  ⟨rfl,
   c10_duplicate_ids_last_wins
     [(⟨none, some (str "one"), some (some (str "T1")), some (str "d1"), none⟩ : JobEntry),
      (⟨none, some (str "two"), some (some (str "T2")), none, some (str "a2")⟩ : JobEntry)]
     [(str "N/A", ⟨str "two", str "N/A", str "a2", str "T2"⟩)] rfl (str "N/A")⟩

theorem check_multiple_urls_decomp (fetch : Str → FetchResult) (keywords : List Str) :
    ∀ (urls report : List Str) (log : List LogEvent),
      (∀ u ∈ urls, (generate_html (fetch u) u keywords).isSome) →
      check_multiple_urls fetch keywords urls (report, log) =
        some (report ++ urls.filterMap (sectionOf fetch keywords),
              log ++ urls.flatMap (logsOf fetch keywords)) := by
  intro urls
  induction urls with
  | nil => intro report log _; simp [check_multiple_urls]
  | cons u rest ih =>
    intro report log h
    obtain ⟨⟨chunk, lg⟩, hg⟩ :=
      Option.isSome_iff_exists.mp (h u (List.mem_cons_self u rest))
    have hsec : sectionOf fetch keywords u = chunk := by rw [sectionOf, hg]
    have hlg : logsOf fetch keywords u = lg := by rw [logsOf, hg]
    have hstep : check_multiple_urls fetch keywords (u :: rest) (report, log) =
        check_multiple_urls fetch keywords rest (report ++ chunk.toList, log ++ lg) := by
      simp only [check_multiple_urls, hg]
    rw [hstep, ih (report ++ chunk.toList) (log ++ lg)
        (fun v hv => h v (List.mem_cons_of_mem u hv))]
    rw [List.filterMap_cons, List.flatMap_cons, hsec, hlg]
    cases chunk with
    | none => simp
    | some s => simp

/-- C1: a transport-level fetch failure on one URL is contained to that URL:
the whole pipeline still completes, the final report is exactly the
concatenation of per-URL sections — each a function of its own URL's fetch
alone, so every sibling's section still appears — and the failed URL
contributes no section, only its error (and zero-match) log records. -/
theorem c1_transport_failure_isolated (fetch : Str → FetchResult)
    (urls keywords : List Str) (u msg : Str)
    (_hmem : u ∈ urls) (hfail : fetch u = .failure msg)
    (hok : ∀ v ∈ urls, (generate_html (fetch v) v keywords).isSome) :
    check_multiple_urls fetch keywords urls ([], []) =
      some (urls.filterMap (sectionOf fetch keywords),
            urls.flatMap (logsOf fetch keywords)) ∧
    sectionOf fetch keywords u = none ∧
    logsOf fetch keywords u = [LogEvent.fetchError u msg, LogEvent.noMatch u] := by
  refine ⟨by simpa using check_multiple_urls_decomp fetch keywords urls [] [] hok, ?_, ?_⟩
  · rw [sectionOf, hfail]; rfl
  · rw [logsOf, hfail]; rfl

/-- A two-URL demonstration fetcher: `"u"` suffers a transport failure,
every other URL succeeds with one matching job entry. -/
def demoFetch : Str → FetchResult := fun s =>
  if s = str "u" then .failure (str "boom")
  else .success [⟨some (str "5"), some (str "a dev"), some (some (str "T")), none, none⟩]

/-- C1 witness: with `"u"` failing and `"v"` succeeding, the pipeline
completes, `"v"`'s section appears, and `"u"` contributes only log records. -/
theorem c1_witness :
    (str "u" ∈ [str "u", str "v"]) ∧
    demoFetch (str "u") = .failure (str "boom") ∧
    (∀ v ∈ [str "u", str "v"], (generate_html (demoFetch v) v [str "dev"]).isSome) ∧
    (check_multiple_urls demoFetch [str "dev"] [str "u", str "v"] ([], []) =
        some ([str "u", str "v"].filterMap (sectionOf demoFetch [str "dev"]),
              [str "u", str "v"].flatMap (logsOf demoFetch [str "dev"])) ∧
      sectionOf demoFetch [str "dev"] (str "u") = none ∧
      logsOf demoFetch [str "dev"] (str "u") =
        [LogEvent.fetchError (str "u") (str "boom"), LogEvent.noMatch (str "u")]) :=
  ⟨by decide, by decide, by decide,
   c1_transport_failure_isolated demoFetch [str "u", str "v"] [str "dev"]
     (str "u") (str "boom") (by decide) (by decide) (by decide)⟩

end WebCrawler
